import Mathlib

/-!
Shallow embedding of `dotlocalctl` (record model, entry parsing, add/remove
mutation semantics, Caddyfile generation, control-plane dispatch), translated
from `src/config.rs`, `src/record.rs`, `src/helpers.rs`, `src/command.rs` and
`src/main.rs`.  Strings are modelled as `List Char`; Rust's `HashMap` is
modelled as an association list with the usual get/insert/remove operations;
fallible code (panics from out-of-bounds indexing and `expect`) returns
`Option`.
-/

namespace DotLocal

/-- Rust `str::split(c)`: splits at every occurrence of `c`; always returns at
least one (possibly empty) segment. -/
def splitOnChar (c : Char) : List Char → List (List Char)
  | [] => [[]]
  | x :: xs =>
    match splitOnChar c xs with
    | [] => [[]]
    | r :: rs => if x = c then [] :: r :: rs else (x :: r) :: rs

/-- Rust `str::splitn(2, c)` viewed as a pair: the part before the first `c`,
and (when `c` occurs) the whole remainder after it. -/
def splitFirst (c : Char) : List Char → List Char × Option (List Char)
  | [] => ([], none)
  | x :: xs =>
    if x = c then ([], some xs)
    else
      let r := splitFirst c xs
      (x :: r.1, r.2)

/-- Rust `str::trim`: strip leading and trailing whitespace. -/
def trimChars (s : List Char) : List Char :=
  ((s.dropWhile Char.isWhitespace).reverse.dropWhile Char.isWhitespace).reverse

/-- Accumulating decimal reader; `none` as soon as a non-digit appears. -/
def digitsAcc : List Char → Nat → Option Nat
  | [], acc => some acc
  | c :: cs, acc =>
    if c.isDigit then digitsAcc cs (acc * 10 + (c.toNat - '0'.toNat)) else none

/-- Decimal digit run to a number; `none` on an empty run or a non-digit. -/
def digitsToNat (s : List Char) : Option Nat :=
  match s with
  | [] => none
  | _ :: _ => digitsAcc s 0

/-- Rust `<i32 as FromStr>::parse`: optional sign, a run of decimal digits,
value within the `i32` range. -/
def parse_i32 (s : List Char) : Option Int :=
  match s with
  | '+' :: rest =>
    match digitsToNat rest with
    | none => none
    | some n => if n ≤ 2147483647 then some (n : Int) else none
  | '-' :: rest =>
    match digitsToNat rest with
    | none => none
    | some n => if n ≤ 2147483648 then some (-(n : Int)) else none
  | _ =>
    match digitsToNat s with
    | none => none
    | some n => if n ≤ 2147483647 then some (n : Int) else none

/-- Decimal rendering of a `Nat`, as Rust's `format!` does. -/
def natToChars (n : Nat) : List Char :=
  Nat.toDigits 10 n

/-- Decimal rendering of an `i32` value. -/
def intToChars (i : Int) : List Char :=
  if i < 0 then '-' :: natToChars i.natAbs else natToChars i.toNat

/-- `parse_proxy_entry` (src/config.rs:137-153, src/main.rs:246-262).
`entry.split(':')` is collected; `parts[0]` is the url and `parts[1]` the port
text (a panic from out-of-bounds indexing or a failing `parse` is `none`); the
url is `splitn(2, '/')` into the domain and an optional path remainder. -/
def parse_proxy_entry (entry : List Char) : Option (List Char × Int × Option (List Char)) :=
  match splitOnChar ':' entry with
  | url :: portPart :: _ =>
    match parse_i32 (trimChars portPart) with
    | none => none
    | some port =>
      let urlParts := splitFirst '/' url
      let domain := urlParts.1
      let path := urlParts.2
      some (domain, port, path)
  | _ => none

/-- `Record` (src/record.rs:6-11, src/main.rs:95-100). -/
structure Record where
  domain : List Char
  paths : List (List Char × Int)
  port : Int
deriving DecidableEq, Repr

/-- The `records` field's `HashMap<String, Record>`, modelled as an
association list. -/
abbrev Records := List (List Char × Record)

/-- `HashMap::get` / `get_mut` lookup: the entry stored under a key. -/
def getRecord : Records → List Char → Option Record
  | [], _ => none
  | e :: rs, d => if e.1 = d then some e.2 else getRecord rs d

/-- In-place mutation through `get_mut`: rewrite the entry stored under the
key (a no-op when the key is absent). -/
def updateRecord : Records → List Char → (Record → Record) → Records
  | [], _, _ => []
  | e :: rs, d, f => if e.1 = d then (e.1, f e.2) :: rs else e :: updateRecord rs d f

/-- `HashMap::insert`: replace the entry under the key, or add a new one. -/
def insertRecord : Records → List Char → Record → Records
  | [], d, r => [(d, r)]
  | e :: rs, d, r => if e.1 = d then (d, r) :: rs else e :: insertRecord rs d r

/-- `HashMap::remove`: drop the entry under the key. -/
def removeRecord (rs : Records) (d : List Char) : Records :=
  rs.filter fun e => e.1 ≠ d

/-- `DotLocalConfig` (src/config.rs:11-16, src/main.rs:141-146). -/
structure DotLocalConfig where
  records : Records
  automatic_https_redirect : Bool
  lan_enabled : Bool
deriving DecidableEq, Repr

/-- `DotLocalConfig::new` (src/config.rs:19-25). -/
def DotLocalConfig.new : DotLocalConfig :=
  { records := [], automatic_https_redirect := true, lan_enabled := true }

/-- `DotLocalConfig::get` / `get_config` (src/config.rs:34-53,
src/main.rs:458-477): the disk is modelled as `Option DotLocalConfig`
(`none` = absent or empty file, which yields the defaults). -/
def get_config (disk : Option DotLocalConfig) : DotLocalConfig :=
  match disk with
  | none => DotLocalConfig.new
  | some c => c

/-- Loop body of `add_proxies` (src/config.rs:60-93, src/main.rs:267-300)
acting on the records map; `none` models the panic aborting the command. -/
def addEntry (rs : Records) (entry : List Char) : Option Records :=
  match parse_proxy_entry entry with
  | none => none
  | some (domain, port0, path) =>
    let pp : Int × List (List Char × Int) :=
      match path with
      | some rest => (-1, [('/' :: rest, port0)])
      | none => (port0, [])
    let port := pp.1
    let paths := pp.2
    match getRecord rs domain with
    | some _ =>
      match paths with
      | [] =>
        -- port changed
        some (updateRecord rs domain fun c => { c with port := port })
      | p0 :: _ =>
        -- removes previous entries of this path, then appends the new pair
        some (updateRecord rs domain fun c =>
          { c with paths := c.paths.filter (fun it => it.1 ≠ p0.1) ++ paths })
    | none =>
      some (insertRecord rs domain { domain := domain, paths := paths, port := port })

/-- The entry loop of `add_proxies` over a whole batch. -/
def add_proxies_registry (rs : Records) : List (List Char) → Option Records
  | [] => some rs
  | e :: es =>
    match addEntry rs e with
    | none => none
    | some rs2 => add_proxies_registry rs2 es

/-- Loop body of `remove_proxies` (src/config.rs:101-125, src/main.rs:321-345)
acting on the records map; a missing record is a silent no-op. -/
def removeEntry (rs : Records) (entry : List Char) : Option Records :=
  match parse_proxy_entry entry with
  | none => none
  | some (domain, port, path) =>
    match getRecord rs domain with
    | none => some rs
    | some existing =>
      match path with
      | some rest =>
        let p := '/' :: rest
        let newPaths := existing.paths.filter fun it => ¬(it.1 = p ∧ it.2 = port)
        if newPaths = [] ∧ existing.port = -1 then
          some (removeRecord rs domain)
        else
          some (updateRecord rs domain fun r => { r with paths := newPaths })
      | none =>
        if port = existing.port then
          if existing.paths = [] then
            some (removeRecord rs domain)
          else
            some (updateRecord rs domain fun r => { r with port := -1 })
        else
          some rs

/-- The entry loop of `remove_proxies` over a whole batch. -/
def remove_proxies_registry (rs : Records) : List (List Char) → Option Records
  | [] => some rs
  | e :: es =>
    match removeEntry rs e with
    | none => none
    | some rs2 => remove_proxies_registry rs2 es

/-- `remove_proxies` from src/main.rs:318-348 as a disk transformer: re-load
the configuration, apply the removals of the batch, `save_config(&config)`.
The result is the configuration persisted at the end (`none` = abort, nothing
persisted). -/
def main_remove_proxies (disk : Option DotLocalConfig) (entries : List (List Char)) :
    Option DotLocalConfig :=
  let config := get_config disk
  match remove_proxies_registry config.records entries with
  | none => none
  | some rs => some { config with records := rs }

/-- `DotLocalConfig::remove_proxies` from src/config.rs:98-128 as a disk
transformer: `self` is the receiver, a fresh `config` is re-loaded from disk
and the removals are applied to it, but the method ends with `self.save()`,
so the configuration persisted is `self`. -/
def config_remove_proxies (selfConfig : DotLocalConfig) (disk : Option DotLocalConfig)
    (entries : List (List Char)) : Option DotLocalConfig :=
  let config := get_config disk
  match remove_proxies_registry config.records entries with
  | none => none
  | some _ => some selfConfig

/-- `remove_all_proxies` from src/main.rs:350-355 as a disk transformer. -/
def main_remove_all_proxies (disk : Option DotLocalConfig) : DotLocalConfig :=
  let config := get_config disk
  { config with records := [] }

/-- `DotLocalConfig::remove_all_proxies` from src/config.rs:130-135: a fresh
`config` is loaded and its records cleared, but the method ends with
`self.save()`, so the configuration persisted is `self`. -/
def config_remove_all_proxies (selfConfig : DotLocalConfig) (disk : Option DotLocalConfig) :
    DotLocalConfig :=
  let config := { get_config disk with records := ([] : Records) }
  let _ := config
  selfConfig

/-- `get_ip` (src/helpers.rs:5-13, src/main.rs:425-433): the host's LAN
address (an external input, passed as `lanIp`) when `lan_enabled`, else the
loopback address. -/
def get_ip (lan_enabled : Bool) (lanIp : List Char) : List Char :=
  if lan_enabled then lanIp else "127.0.0.1".toList

/-- `Record::entry` (src/record.rs:14-41, src/main.rs:103-130): one Caddyfile
stanza for a record. -/
def Record.entry (r : Record) (automatic_https_redirect lan_enabled : Bool)
    (lanIp : List Char) : List Char :=
  let ip := get_ip lan_enabled lanIp
  let head :=
    if automatic_https_redirect then
      r.domain ++ " \x7b".toList
    else
      "http://".toList ++ r.domain ++ " https://".toList ++ r.domain ++ " \x7b".toList
  let portPart :=
    if r.port > -1 then
      "\n\treverse_proxy ".toList ++ ip ++ ":".toList ++ intToChars r.port
    else
      []
  let pathParts :=
    r.paths.foldl
      (fun acc it =>
        acc ++ "\n\treverse_proxy ".toList ++ it.1 ++ " ".toList ++ ip ++ ":".toList ++
          intToChars it.2)
      []
  head ++ portPart ++ pathParts ++ "\n\x7d".toList

/-- `update_caddyfile` (src/helpers.rs:15-45, src/main.rs:487-517): the text
written to the Caddyfile; `made_entry` tracks whether the record loop ran. -/
def update_caddyfile_content (config : DotLocalConfig) (lanIp : List Char) : List Char :=
  let res :=
    config.records.foldl
      (fun (acc : List Char × Bool) e =>
        (acc.1 ++
            Record.entry e.2 config.automatic_https_redirect config.lan_enabled lanIp ++
            "\n".toList,
          true))
      ([], false)
  let made_entry := res.2
  if made_entry then res.1 else res.1 ++ "\n".toList

/-- `records_list` (src/config.rs:27-32): the values of the records map. -/
def DotLocalConfig.records_list (c : DotLocalConfig) : List Record :=
  c.records.map fun e => e.2

/-- `spawn_dns_proxies` (src/helpers.rs:47-68, src/main.rs:435-456): one
helper process per unique domain, first occurrence wins; the running helper
set is modelled by the list of advertised domains. -/
def spawn_dns_proxies (config : DotLocalConfig) : List (List Char) :=
  config.records_list.foldl
    (fun added r => if r.domain ∈ added then added else added ++ [r.domain])
    []

/-- The subset of `tiny_http::Method` relevant to the dispatch guard. -/
inductive HttpMethod
  | get
  | head
  | post
  | put
  | delete
  | connect
  | options
  | trace
  | patch
deriving DecidableEq, Repr

/-- Side effects a control-plane request can perform on the supervised
processes and the external proxy. -/
inductive Effect
  | writeCaddyfile
  | caddyReload
  | caddyStop
  | killHelpers
  | spawnHelpers
deriving DecidableEq, Repr

/-- One iteration of the accept loop of `start_server`
(src/command.rs:127-155, src/main.rs:361-390): given the request's method and
url, the held helper-process set and the on-disk configuration, produce the
response status (`none` when the loop breaks before responding, as on
`/quit`), the new helper-process set, whether the loop breaks, and the
effects performed.  A non-GET request is answered `405` and the loop
`continue`s. -/
def handle_request (m : HttpMethod) (url : List Char) (processes : List (List Char))
    (disk : Option DotLocalConfig) :
    Option Nat × List (List Char) × Bool × List Effect :=
  if m ≠ HttpMethod.get then
    (some 405, processes, false, [])
  else if url = "/restart".toList then
    -- restart_proxy: rewrite Caddyfile, reload caddy, stop all helpers,
    -- spawn fresh ones from the re-loaded configuration
    let config := get_config disk
    (some 200, spawn_dns_proxies config, false,
      [Effect.writeCaddyfile, Effect.killHelpers, Effect.caddyReload, Effect.spawnHelpers])
  else if url = "/quit".toList then
    (none, [], true, [Effect.killHelpers, Effect.caddyStop])
  else
    (some 200, processes, false, [])

/-- A mutation step of the registry, as issued by the CLI. -/
inductive RegistryOp
  | add (entries : List (List Char))
  | remove (entries : List (List Char))

/-- Apply one registry operation. -/
def applyOp (rs : Records) : RegistryOp → Option Records
  | RegistryOp.add es => add_proxies_registry rs es
  | RegistryOp.remove es => remove_proxies_registry rs es

/-- Apply a sequence of registry operations. -/
def applyOps (rs : Records) : List RegistryOp → Option Records
  | [] => some rs
  | op :: ops =>
    match applyOp rs op with
    | none => none
    | some rs2 => applyOps rs2 ops

/-- A record is meaningfully non-empty: a default port or at least one path. -/
def nonEmptyRecord (r : Record) : Prop :=
  r.port ≠ -1 ∨ r.paths ≠ []

instance (r : Record) : Decidable (nonEmptyRecord r) :=
  inferInstanceAs (Decidable (r.port ≠ -1 ∨ r.paths ≠ []))

/-- The spec's registry invariant: no both-empty record is retained. -/
def registryInv (rs : Records) : Prop :=
  ∀ e ∈ rs, nonEmptyRecord e.2

instance (rs : Records) : Decidable (registryInv rs) :=
  inferInstanceAs (Decidable (∀ e ∈ rs, nonEmptyRecord e.2))

/-- An entry whose parsed port is `-1` and which has no path part creates or
rewrites a record into the both-empty shape; this predicate excludes those. -/
def entryPortOk (e : List Char) : Prop :=
  match parse_proxy_entry e with
  | some (_, port, none) => port ≠ -1
  | _ => True

instance (e : List Char) : Decidable (entryPortOk e) := by
  unfold entryPortOk
  rcases parse_proxy_entry e with _ | ⟨d, port, _ | p⟩ <;> exact inferInstance

/-- All add entries of an operation are port-safe; removals are unrestricted. -/
def opOk : RegistryOp → Prop
  | RegistryOp.add es => ∀ e ∈ es, entryPortOk e
  | RegistryOp.remove _ => True

instance : ∀ op : RegistryOp, Decidable (opOk op)
  | RegistryOp.add es => inferInstanceAs (Decidable (∀ e ∈ es, entryPortOk e))
  | RegistryOp.remove _ => inferInstanceAs (Decidable True)

/-- The parser the words of the claim describe: split once on the FIRST `:`,
the ENTIRE substring after it being the port text; split the left side once
on the first `/`. -/
def parse_entry_claim (entry : List Char) : Option (List Char × Int × Option (List Char)) :=
  match splitFirst ':' entry with
  | (_, none) => none
  | (url, some portText) =>
    match parse_i32 (trimChars portText) with
    | none => none
    | some port =>
      let urlParts := splitFirst '/' url
      some (urlParts.1, port, urlParts.2)

/-- The amended parser: the port text is the substring between the first and
the second `:` (the whole tail when there is no second `:`); the left side is
split once on the first `/` as before. -/
def parse_entry_amended (entry : List Char) : Option (List Char × Int × Option (List Char)) :=
  match splitFirst ':' entry with
  | (_, none) => none
  | (url, some rest) =>
    let portText := (splitFirst ':' rest).1
    match parse_i32 (trimChars portText) with
    | none => none
    | some port =>
      let urlParts := splitFirst '/' url
      some (urlParts.1, port, urlParts.2)

end DotLocal

namespace DotLocal

example : "a.local".toList = ['a', '.', 'l', 'o', 'c', 'a', 'l'] := by decide

example : parse_proxy_entry "a.local:3000".toList = some ("a.local".toList, 3000, none) := by
  decide

example : parse_proxy_entry "a.local/x:9".toList = some ("a.local".toList, 9, some "x".toList) := by
  decide

example : parse_proxy_entry "a.local:1:2".toList = some ("a.local".toList, 1, none) := by
  decide

example : parse_proxy_entry "a.local".toList = none := by decide

example : parse_proxy_entry "a.local:-1".toList = some ("a.local".toList, -1, none) := by decide

example :
    add_proxies_registry [] ["a.local:3000".toList] =
      some [("a.local".toList, ⟨"a.local".toList, [], 3000⟩)] := by decide

example :
    add_proxies_registry [("a.local".toList, ⟨"a.local".toList, [("/x".toList, 1), ("/y".toList, 2)], 5⟩)]
      ["a.local/x:9".toList] =
      some [("a.local".toList, ⟨"a.local".toList, [("/y".toList, 2), ("/x".toList, 9)], 5⟩)] := by
  decide

example :
    remove_proxies_registry [("a.local".toList, ⟨"a.local".toList, [("/x".toList, 1)], 3000⟩)]
      ["a.local:3000".toList] =
      some [("a.local".toList, ⟨"a.local".toList, [("/x".toList, 1)], -1⟩)] := by decide

example :
    remove_proxies_registry [("a.local".toList, ⟨"a.local".toList, [("/x".toList, 1)], -1⟩)]
      ["a.local/x:1".toList] = some [] := by decide

example :
    add_proxies_registry [] ["a.local:-1".toList] =
      some [("a.local".toList, ⟨"a.local".toList, [], -1⟩)] := by decide

example : parse_entry_claim "a.local:1:2".toList = none := by decide

example : parse_entry_amended "a.local:1:2".toList = some ("a.local".toList, 1, none) := by decide

example :
    update_caddyfile_content ⟨[], true, true⟩ "192.168.1.2".toList = "\n".toList := by decide

example :
    handle_request HttpMethod.post "/restart".toList ["a.local".toList] none =
      (some 405, ["a.local".toList], false, []) := by decide

example :
    config_remove_all_proxies ⟨[("a.local".toList, ⟨"a.local".toList, [], 3000⟩)], true, true⟩
      (some ⟨[("a.local".toList, ⟨"a.local".toList, [], 3000⟩)], true, true⟩) =
      ⟨[("a.local".toList, ⟨"a.local".toList, [], 3000⟩)], true, true⟩ := by decide

theorem splitOnChar_ne_nil (c : Char) (l : List Char) : splitOnChar c l ≠ [] := by
  cases l with
  | nil => simp [splitOnChar]
  | cons x xs =>
    rw [splitOnChar]
    cases splitOnChar c xs with
    | nil => simp
    | cons r rs => by_cases hx : x = c <;> simp [hx]

theorem splitOnChar_eq_splitFirst (c : Char) (l : List Char) :
    splitOnChar c l =
      (splitFirst c l).1 ::
        (match (splitFirst c l).2 with
         | none => []
         | some r => splitOnChar c r) := by
  induction l with
  | nil => rfl
  | cons x xs ih =>
    cases hsp : splitOnChar c xs with
    | nil => exact absurd hsp (splitOnChar_ne_nil c xs)
    | cons r rs =>
      rw [hsp] at ih
      obtain ⟨ih1, ih2⟩ := List.cons_eq_cons.mp ih
      by_cases h : x = c
      · simp only [splitOnChar, splitFirst, hsp, if_pos h]
      · simp only [splitOnChar, splitFirst, hsp, if_neg h]
        rw [← ih1, ← ih2]

theorem splitFirst_of_not_mem {c : Char} {l : List Char} (h : c ∉ l) :
    splitFirst c l = (l, none) := by
  induction l with
  | nil => rfl
  | cons x xs ih =>
    have hx : ¬x = c := fun hx => h (hx ▸ List.mem_cons_self x xs)
    have hxs : c ∉ xs := fun hm => h (List.mem_cons_of_mem x hm)
    simp [splitFirst, hx, ih hxs]

theorem parse_proxy_entry_of_no_colon {entry : List Char} (h : ':' ∉ entry) :
    parse_proxy_entry entry = none := by
  rw [parse_proxy_entry, splitOnChar_eq_splitFirst ':' entry, splitFirst_of_not_mem h]

theorem getRecord_updateRecord (rs : Records) (d : List Char) (f : Record → Record) :
    getRecord (updateRecord rs d f) d = (getRecord rs d).map f := by
  induction rs with
  | nil => rfl
  | cons e rs ih =>
    by_cases h : e.1 = d
    · simp [updateRecord, getRecord, h]
    · simp [updateRecord, getRecord, h, ih]

theorem mem_updateRecord {rs : Records} {d : List Char} {f : Record → Record} {x}
    (hx : x ∈ updateRecord rs d f) :
    x ∈ rs ∨ ∃ r, getRecord rs d = some r ∧ x = (d, f r) := by
  induction rs with
  | nil => simp [updateRecord] at hx
  | cons e rs ih =>
    by_cases h : e.1 = d
    · rw [updateRecord, if_pos h] at hx
      rcases List.mem_cons.mp hx with h1 | h1
      · exact Or.inr ⟨e.2, by simp [getRecord, h], by rw [h1, h]⟩
      · exact Or.inl (List.mem_cons_of_mem _ h1)
    · rw [updateRecord, if_neg h] at hx
      rcases List.mem_cons.mp hx with h1 | h1
      · exact Or.inl (h1 ▸ List.mem_cons_self e rs)
      · rcases ih h1 with h2 | ⟨r, hr, hxr⟩
        · exact Or.inl (List.mem_cons_of_mem _ h2)
        · exact Or.inr ⟨r, by simp [getRecord, h, hr], hxr⟩

theorem mem_insertRecord {rs : Records} {d : List Char} {r : Record} {x}
    (hx : x ∈ insertRecord rs d r) : x ∈ rs ∨ x = (d, r) := by
  induction rs with
  | nil => simp [insertRecord] at hx; exact Or.inr hx
  | cons e rs ih =>
    by_cases h : e.1 = d
    · rw [insertRecord, if_pos h] at hx
      rcases List.mem_cons.mp hx with h1 | h1
      · exact Or.inr h1
      · exact Or.inl (List.mem_cons_of_mem _ h1)
    · rw [insertRecord, if_neg h] at hx
      rcases List.mem_cons.mp hx with h1 | h1
      · exact Or.inl (h1 ▸ List.mem_cons_self e rs)
      · rcases ih h1 with h2 | h2
        · exact Or.inl (List.mem_cons_of_mem _ h2)
        · exact Or.inr h2

theorem mem_removeRecord {rs : Records} {d : List Char} {x}
    (hx : x ∈ removeRecord rs d) : x ∈ rs :=
  List.mem_of_mem_filter hx

theorem getRecord_eq_none_iff {rs : Records} {d : List Char} :
    getRecord rs d = none ↔ ∀ e ∈ rs, e.1 ≠ d := by
  induction rs with
  | nil => simp [getRecord]
  | cons e rs ih =>
    rw [getRecord]
    by_cases h : e.1 = d
    · simp only [if_pos h]
      constructor
      · intro hc
        exact absurd hc (Option.some_ne_none _)
      · intro hall
        exact absurd h (hall e (List.mem_cons_self e rs))
    · simp only [if_neg h]
      rw [ih, List.forall_mem_cons]
      exact ⟨fun hall => ⟨h, hall⟩, fun hpair => hpair.2⟩

theorem insertRecord_eq_append {rs : Records} {d : List Char} (r : Record)
    (h : getRecord rs d = none) : insertRecord rs d r = rs ++ [(d, r)] := by
  induction rs with
  | nil => rfl
  | cons e rs ih =>
    have he : e.1 ≠ d := getRecord_eq_none_iff.mp h e (List.mem_cons_self e rs)
    have hrs : getRecord rs d = none :=
      getRecord_eq_none_iff.mpr fun x hx => getRecord_eq_none_iff.mp h x (List.mem_cons_of_mem _ hx)
    simp [insertRecord, he, ih hrs]

theorem getRecord_append_of_none {rs : Records} {d : List Char} {r : Record}
    (h : getRecord rs d = none) : getRecord (rs ++ [(d, r)]) d = some r := by
  induction rs with
  | nil => simp [getRecord]
  | cons e rs ih =>
    have he : e.1 ≠ d := getRecord_eq_none_iff.mp h e (List.mem_cons_self e rs)
    have hrs : getRecord rs d = none :=
      getRecord_eq_none_iff.mpr fun x hx => getRecord_eq_none_iff.mp h x (List.mem_cons_of_mem _ hx)
    simpa [getRecord, he] using ih hrs

theorem updateRecord_append_of_none {rs : Records} {d : List Char} {r : Record}
    (f : Record → Record) (h : getRecord rs d = none) :
    updateRecord (rs ++ [(d, r)]) d f = rs ++ [(d, f r)] := by
  induction rs with
  | nil => simp [updateRecord]
  | cons e rs ih =>
    have he : e.1 ≠ d := getRecord_eq_none_iff.mp h e (List.mem_cons_self e rs)
    have hrs : getRecord rs d = none :=
      getRecord_eq_none_iff.mpr fun x hx => getRecord_eq_none_iff.mp h x (List.mem_cons_of_mem _ hx)
    simp [updateRecord, he, ih hrs]

theorem updateRecord_updateRecord (rs : Records) (d : List Char) (f g : Record → Record) :
    updateRecord (updateRecord rs d f) d g = updateRecord rs d fun r => g (f r) := by
  induction rs with
  | nil => rfl
  | cons e rs ih =>
    by_cases h : e.1 = d <;> simp [updateRecord, h, ih]

theorem addEntry_of_parse_none {rs : Records} {e : List Char}
    (h : parse_proxy_entry e = none) : addEntry rs e = none := by
  simp [addEntry, h]

theorem removeEntry_of_parse_none {rs : Records} {e : List Char}
    (h : parse_proxy_entry e = none) : removeEntry rs e = none := by
  simp [removeEntry, h]

theorem addEntry_noPath_existing {rs : Records} {e d : List Char} {port : Int} {r : Record}
    (hp : parse_proxy_entry e = some (d, port, none)) (hr : getRecord rs d = some r) :
    addEntry rs e = some (updateRecord rs d fun c => { c with port := port }) := by
  simp only [addEntry, hp, hr]

theorem addEntry_noPath_new {rs : Records} {e d : List Char} {port : Int}
    (hp : parse_proxy_entry e = some (d, port, none)) (hr : getRecord rs d = none) :
    addEntry rs e = some (insertRecord rs d { domain := d, paths := [], port := port }) := by
  simp only [addEntry, hp, hr]

theorem addEntry_path_existing {rs : Records} {e d rest : List Char} {port : Int} {r : Record}
    (hp : parse_proxy_entry e = some (d, port, some rest)) (hr : getRecord rs d = some r) :
    addEntry rs e =
      some (updateRecord rs d fun c =>
        { c with
          paths := c.paths.filter (fun it => it.1 ≠ '/' :: rest) ++ [('/' :: rest, port)] }) := by
  simp only [addEntry, hp, hr]

theorem addEntry_path_new {rs : Records} {e d rest : List Char} {port : Int}
    (hp : parse_proxy_entry e = some (d, port, some rest)) (hr : getRecord rs d = none) :
    addEntry rs e =
      some (insertRecord rs d
        { domain := d, paths := [('/' :: rest, port)], port := -1 }) := by
  simp only [addEntry, hp, hr]

theorem add_proxies_singleton (rs : Records) (e : List Char) :
    add_proxies_registry rs [e] = addEntry rs e := by
  rw [add_proxies_registry]
  cases addEntry rs e with
  | none => rfl
  | some rs2 => rfl

theorem remove_proxies_singleton (rs : Records) (e : List Char) :
    remove_proxies_registry rs [e] = removeEntry rs e := by
  rw [remove_proxies_registry]
  cases removeEntry rs e with
  | none => rfl
  | some rs2 => rfl

theorem removeEntry_miss {rs : Records} {e d : List Char} {port : Int}
    {path : Option (List Char)} (hp : parse_proxy_entry e = some (d, port, path))
    (hr : getRecord rs d = none) : removeEntry rs e = some rs := by
  simp only [removeEntry, hp, hr]

theorem removeEntry_noPath_demote {rs : Records} {e d : List Char} {port : Int} {r : Record}
    (hp : parse_proxy_entry e = some (d, port, none)) (hr : getRecord rs d = some r)
    (hport : port = r.port) (hpaths : r.paths ≠ []) :
    removeEntry rs e = some (updateRecord rs d fun c => { c with port := -1 }) := by
  simp only [removeEntry, hp, hr, if_pos hport, if_neg hpaths]

theorem removeEntry_noPath_delete {rs : Records} {e d : List Char} {port : Int} {r : Record}
    (hp : parse_proxy_entry e = some (d, port, none)) (hr : getRecord rs d = some r)
    (hport : port = r.port) (hpaths : r.paths = []) :
    removeEntry rs e = some (removeRecord rs d) := by
  simp only [removeEntry, hp, hr, if_pos hport, if_pos hpaths]

theorem removeEntry_noPath_skip {rs : Records} {e d : List Char} {port : Int} {r : Record}
    (hp : parse_proxy_entry e = some (d, port, none)) (hr : getRecord rs d = some r)
    (hport : ¬port = r.port) : removeEntry rs e = some rs := by
  simp only [removeEntry, hp, hr, if_neg hport]

theorem removeEntry_path_delete {rs : Records} {e d rest : List Char} {port : Int} {r : Record}
    (hp : parse_proxy_entry e = some (d, port, some rest)) (hr : getRecord rs d = some r)
    (hcond : r.paths.filter (fun it => ¬(it.1 = '/' :: rest ∧ it.2 = port)) = [] ∧ r.port = -1) :
    removeEntry rs e = some (removeRecord rs d) := by
  simp only [removeEntry, hp, hr, if_pos hcond]

theorem removeEntry_path_update {rs : Records} {e d rest : List Char} {port : Int} {r : Record}
    (hp : parse_proxy_entry e = some (d, port, some rest)) (hr : getRecord rs d = some r)
    (hcond : ¬(r.paths.filter (fun it => ¬(it.1 = '/' :: rest ∧ it.2 = port)) = [] ∧
      r.port = -1)) :
    removeEntry rs e =
      some (updateRecord rs d fun c =>
        { c with paths := r.paths.filter fun it => ¬(it.1 = '/' :: rest ∧ it.2 = port) }) := by
  simp only [removeEntry, hp, hr, if_neg hcond]

theorem addEntry_preserves_inv {rs rs' : Records} {e : List Char} (hok : entryPortOk e)
    (hinv : registryInv rs) (h : addEntry rs e = some rs') : registryInv rs' := by
  cases hp : parse_proxy_entry e with
  | none =>
    rw [addEntry_of_parse_none hp] at h
    cases h
  | some t =>
    obtain ⟨d, port, path⟩ := t
    cases path with
    | none =>
      have hport : port ≠ -1 := by simpa [entryPortOk, hp] using hok
      cases hg : getRecord rs d with
      | some r =>
        rw [addEntry_noPath_existing hp hg] at h
        injection h with h
        subst h
        intro x hx
        rcases mem_updateRecord hx with hmem | ⟨r0, _, rfl⟩
        · exact hinv x hmem
        · exact Or.inl hport
      | none =>
        rw [addEntry_noPath_new hp hg] at h
        injection h with h
        subst h
        intro x hx
        rcases mem_insertRecord hx with hmem | rfl
        · exact hinv x hmem
        · exact Or.inl hport
    | some rest =>
      cases hg : getRecord rs d with
      | some r =>
        rw [addEntry_path_existing hp hg] at h
        injection h with h
        subst h
        intro x hx
        rcases mem_updateRecord hx with hmem | ⟨r0, _, rfl⟩
        · exact hinv x hmem
        · exact Or.inr (by simp)
      | none =>
        rw [addEntry_path_new hp hg] at h
        injection h with h
        subst h
        intro x hx
        rcases mem_insertRecord hx with hmem | rfl
        · exact hinv x hmem
        · exact Or.inr (by simp [nonEmptyRecord])

theorem removeEntry_preserves_inv {rs rs' : Records} {e : List Char}
    (hinv : registryInv rs) (h : removeEntry rs e = some rs') : registryInv rs' := by
  cases hp : parse_proxy_entry e with
  | none =>
    rw [removeEntry_of_parse_none hp] at h
    cases h
  | some t =>
    obtain ⟨d, port, path⟩ := t
    cases hg : getRecord rs d with
    | none =>
      rw [removeEntry_miss hp hg] at h
      injection h with h
      subst h
      exact hinv
    | some r =>
      cases path with
      | none =>
        by_cases hport : port = r.port
        · by_cases hpaths : r.paths = []
          · rw [removeEntry_noPath_delete hp hg hport hpaths] at h
            injection h with h
            subst h
            intro x hx
            exact hinv x (mem_removeRecord hx)
          · rw [removeEntry_noPath_demote hp hg hport hpaths] at h
            injection h with h
            subst h
            intro x hx
            rcases mem_updateRecord hx with hmem | ⟨r0, hr0, rfl⟩
            · exact hinv x hmem
            · have : r0 = r := by rw [hg] at hr0; injection hr0 with hr0; exact hr0.symm
              subst this
              exact Or.inr hpaths
        · rw [removeEntry_noPath_skip hp hg hport] at h
          injection h with h
          subst h
          exact hinv
      | some rest =>
        by_cases hcond :
            r.paths.filter (fun it => ¬(it.1 = '/' :: rest ∧ it.2 = port)) = [] ∧ r.port = -1
        · rw [removeEntry_path_delete hp hg hcond] at h
          injection h with h
          subst h
          intro x hx
          exact hinv x (mem_removeRecord hx)
        · rw [removeEntry_path_update hp hg hcond] at h
          injection h with h
          subst h
          intro x hx
          rcases mem_updateRecord hx with hmem | ⟨r0, hr0, rfl⟩
          · exact hinv x hmem
          · have : r0 = r := by rw [hg] at hr0; injection hr0 with hr0; exact hr0.symm
            subst this
            rcases not_and_or.mp hcond with hc | hc
            · exact Or.inr hc
            · exact Or.inl hc

theorem add_proxies_preserves_inv {es : List (List Char)} {rs rs' : Records}
    (hok : ∀ e ∈ es, entryPortOk e) (hinv : registryInv rs)
    (h : add_proxies_registry rs es = some rs') : registryInv rs' := by
  induction es generalizing rs with
  | nil =>
    rw [add_proxies_registry] at h
    injection h with h
    subst h
    exact hinv
  | cons e es ih =>
    cases ha : addEntry rs e with
    | none =>
      simp only [add_proxies_registry, ha] at h
      exact Option.noConfusion h
    | some rs2 =>
      simp only [add_proxies_registry, ha] at h
      exact ih (fun x hx => hok x (List.mem_cons_of_mem _ hx))
        (addEntry_preserves_inv (hok e (List.mem_cons_self e es)) hinv ha) h

theorem remove_proxies_preserves_inv {es : List (List Char)} {rs rs' : Records}
    (hinv : registryInv rs) (h : remove_proxies_registry rs es = some rs') : registryInv rs' := by
  induction es generalizing rs with
  | nil =>
    rw [remove_proxies_registry] at h
    injection h with h
    subst h
    exact hinv
  | cons e es ih =>
    cases ha : removeEntry rs e with
    | none =>
      simp only [remove_proxies_registry, ha] at h
      exact Option.noConfusion h
    | some rs2 =>
      simp only [remove_proxies_registry, ha] at h
      exact ih (removeEntry_preserves_inv hinv ha) h

/-- C1: the claim says the configuration persisted at the end of a
`removeProxies` batch is exactly the freshly loaded configuration with the
removals applied.  `DotLocalConfig::remove_proxies` (src/config.rs:98-128)
loads `config` from disk and applies the removals to it, but ends with
`self.save()`, persisting the untouched receiver: at this input the loaded
configuration with the removal applied has no records, yet the persisted one
still holds `a.local`.  The twin implementation `remove_proxies`
(src/main.rs:318-348) persists the loaded-and-modified configuration, as the
claim states. -/
theorem remove_proxies_persists_self_not_loaded :
    config_remove_proxies
        ⟨[("a.local".toList, ⟨"a.local".toList, [], 3000⟩)], true, true⟩
        (some ⟨[("a.local".toList, ⟨"a.local".toList, [], 3000⟩)], true, true⟩)
        ["a.local:3000".toList] =
      some ⟨[("a.local".toList, ⟨"a.local".toList, [], 3000⟩)], true, true⟩ ∧
    remove_proxies_registry [("a.local".toList, ⟨"a.local".toList, [], 3000⟩)]
        ["a.local:3000".toList] = some [] ∧
    main_remove_proxies
        (some ⟨[("a.local".toList, ⟨"a.local".toList, [], 3000⟩)], true, true⟩)
        ["a.local:3000".toList] = some ⟨[], true, true⟩ := by
  decide

/-- C2: the claim says the persisted records mapping is empty after
remove-all, for every prior state.  `DotLocalConfig::remove_all_proxies`
(src/config.rs:130-135) clears the records of a freshly loaded `config` but
then runs `self.save()`, so the persisted records are the receiver's,
non-empty at this input; the twin `remove_all_proxies` (src/main.rs:350-355)
persists the emptied configuration as claimed. -/
theorem remove_all_proxies_persists_self_records :
    (config_remove_all_proxies
          ⟨[("a.local".toList, ⟨"a.local".toList, [], 3000⟩)], true, true⟩
          (some ⟨[("a.local".toList, ⟨"a.local".toList, [], 3000⟩)], true, true⟩)).records =
        [("a.local".toList, ⟨"a.local".toList, [], 3000⟩)] ∧
    [("a.local".toList, (⟨"a.local".toList, [], 3000⟩ : Record))] ≠ ([] : Records) ∧
    (main_remove_all_proxies
        (some ⟨[("a.local".toList, ⟨"a.local".toList, [], 3000⟩)], true, true⟩)).records =
      [] := by
  decide

/-- C3, counterexample: starting from the empty registry (which satisfies the
invariant), adding the entry `a.local:-1` retains a record with
`defaultPort = -1` and empty `paths`, so the invariant is not preserved by
every `addProxies`/`removeProxies` sequence. -/
theorem registry_invariant_broken_by_negative_port_add :
    registryInv [] ∧
    applyOps [] [RegistryOp.add ["a.local:-1".toList]] =
      some [("a.local".toList, ⟨"a.local".toList, [], -1⟩)] ∧
    ¬registryInv [("a.local".toList, ⟨"a.local".toList, [], -1⟩)] := by
  decide

/-- C3, amended: for every sequence of `addProxies`/`removeProxies`
operations in which every add entry without a path part parses to a port
different from `-1`, starting from a registry satisfying the invariant, every
record in the resulting registry has `defaultPort ≠ -1` or non-empty
`paths`. -/
theorem registry_invariant_preserved (rs rs' : Records) (ops : List RegistryOp)
    (hinv : registryInv rs) (hok : ∀ op ∈ ops, opOk op)
    (h : applyOps rs ops = some rs') : registryInv rs' := by
  induction ops generalizing rs with
  | nil =>
    rw [applyOps] at h
    injection h with h
    subst h
    exact hinv
  | cons op ops ih =>
    cases ha : applyOp rs op with
    | none =>
      simp only [applyOps, ha] at h
      exact Option.noConfusion h
    | some rs2 =>
      simp only [applyOps, ha] at h
      have hinv2 : registryInv rs2 := by
        cases op with
        | add es => exact add_proxies_preserves_inv (hok _ (List.mem_cons_self _ _)) hinv ha
        | remove es => exact remove_proxies_preserves_inv hinv ha
      exact ih rs2 hinv2 (fun o ho => hok o (List.mem_cons_of_mem _ ho)) h

/-- Witness for the amended C3 theorem at a concrete run: one path add and
one default-port removal starting from a one-record registry. -/
theorem registry_invariant_preserved_witness :
    registryInv [("b.local".toList, ⟨"b.local".toList, [], 8⟩)] ∧
    (∀ op ∈ [RegistryOp.add ["a.local/x:3000".toList],
        RegistryOp.remove ["b.local:8".toList]], opOk op) ∧
    applyOps [("b.local".toList, ⟨"b.local".toList, [], 8⟩)]
        [RegistryOp.add ["a.local/x:3000".toList], RegistryOp.remove ["b.local:8".toList]] =
      some [("a.local".toList, ⟨"a.local".toList, [("/x".toList, 3000)], -1⟩)] ∧
    registryInv [("a.local".toList, ⟨"a.local".toList, [("/x".toList, 3000)], -1⟩)] :=
  ⟨by decide, by decide, by decide,
    registry_invariant_preserved [("b.local".toList, ⟨"b.local".toList, [], 8⟩)]
      [("a.local".toList, ⟨"a.local".toList, [("/x".toList, 3000)], -1⟩)]
      [RegistryOp.add ["a.local/x:3000".toList], RegistryOp.remove ["b.local:8".toList]]
      (by decide) (by decide) (by decide)⟩

/-- C4, counterexample: the claim says the ENTIRE substring after the first
`:` is the port text.  On `a.local:1:2` that substring is `1:2`, which does
not parse as a number, so the claimed parser fails; the code takes only the
segment between the first and second `:` and succeeds with port `1`. -/
theorem parse_not_whole_tail_after_first_colon :
    parse_proxy_entry "a.local:1:2".toList = some ("a.local".toList, 1, none) ∧
    parse_entry_claim "a.local:1:2".toList = none ∧
    parse_proxy_entry "a.local:1:2".toList ≠ parse_entry_claim "a.local:1:2".toList := by
  decide

/-- C4, amended: for every entry string, the substring before the first `:`
is the domain-and-optional-path, the port text is the substring between the
first and second `:` (the entire tail after the first `:` when no second `:`
exists), and the left side is split once on the first `/` into the domain and
an optional path remainder. -/
theorem parse_splits_between_first_and_second_colon (entry : List Char) :
    parse_proxy_entry entry = parse_entry_amended entry := by
  rw [parse_proxy_entry, parse_entry_amended, splitOnChar_eq_splitFirst ':' entry]
  rcases hsp : splitFirst ':' entry with ⟨url, _ | rest⟩
  · rfl
  · dsimp only
    rw [splitOnChar_eq_splitFirst ':' rest]

/-- C5: in every registry whose record for `a.local` has paths
`[("/x",1),("/y",2)]`, adding `a.local/x:9` removes the existing `/x` entry
(exact match), keeps the untouched `("/y",2)` in order, and appends
`("/x",9)` last; the record's other fields are untouched. -/
theorem path_add_overwrites_same_path_only (rs : Records) (r : Record)
    (hr : getRecord rs "a.local".toList = some r)
    (hpaths : r.paths = [("/x".toList, 1), ("/y".toList, 2)]) :
    ∃ rs', add_proxies_registry rs ["a.local/x:9".toList] = some rs' ∧
      getRecord rs' "a.local".toList =
        some { r with paths := [("/y".toList, 2), ("/x".toList, 9)] } := by
  have hparse : parse_proxy_entry "a.local/x:9".toList =
      some ("a.local".toList, 9, some "x".toList) := by decide
  refine ⟨updateRecord rs "a.local".toList fun c =>
    { c with paths := c.paths.filter (fun it => it.1 ≠ '/' :: "x".toList) ++
        [('/' :: "x".toList, 9)] }, ?_, ?_⟩
  · rw [add_proxies_singleton, addEntry_path_existing hparse hr]
  · rw [getRecord_updateRecord, hr, Option.map_some']
    have hfilter :
        List.filter (fun it => decide (it.1 ≠ '/' :: "x".toList))
            [("/x".toList, (1 : Int)), ("/y".toList, 2)] ++
          [('/' :: "x".toList, (9 : Int))] =
        [("/y".toList, 2), ("/x".toList, 9)] := by decide
    simp only [hpaths]
    rw [hfilter]

/-- Witness for C5 at a concrete one-record registry. -/
theorem path_add_overwrites_same_path_only_witness :
    getRecord [("a.local".toList, ⟨"a.local".toList, [("/x".toList, 1), ("/y".toList, 2)], 5⟩)]
        "a.local".toList =
      some ⟨"a.local".toList, [("/x".toList, 1), ("/y".toList, 2)], 5⟩ ∧
    ∃ rs',
      add_proxies_registry
          [("a.local".toList, ⟨"a.local".toList, [("/x".toList, 1), ("/y".toList, 2)], 5⟩)]
          ["a.local/x:9".toList] = some rs' ∧
      getRecord rs' "a.local".toList =
        some ⟨"a.local".toList, [("/y".toList, 2), ("/x".toList, 9)], 5⟩ :=
  ⟨by decide,
    path_add_overwrites_same_path_only
      [("a.local".toList, ⟨"a.local".toList, [("/x".toList, 1), ("/y".toList, 2)], 5⟩)]
      ⟨"a.local".toList, [("/x".toList, 1), ("/y".toList, 2)], 5⟩ (by decide) (by decide)⟩

/-- C6: in every registry whose record for `a.local` has `defaultPort = 3000`
and `paths = [("/x",1)]`, removing `a.local:3000` demotes the record to
`defaultPort = -1` with its paths unchanged; the record is retained. -/
theorem default_port_removal_demotes (rs : Records) (r : Record)
    (hr : getRecord rs "a.local".toList = some r) (hport : r.port = 3000)
    (hpaths : r.paths = [("/x".toList, 1)]) :
    ∃ rs', remove_proxies_registry rs ["a.local:3000".toList] = some rs' ∧
      getRecord rs' "a.local".toList = some ⟨r.domain, [("/x".toList, 1)], -1⟩ := by
  have hparse : parse_proxy_entry "a.local:3000".toList =
      some ("a.local".toList, 3000, none) := by decide
  have hport' : (3000 : Int) = r.port := by rw [hport]
  have hne : r.paths ≠ [] := by rw [hpaths]; decide
  refine ⟨updateRecord rs "a.local".toList fun c => { c with port := -1 }, ?_, ?_⟩
  · rw [remove_proxies_singleton, removeEntry_noPath_demote hparse hr hport' hne]
  · rw [getRecord_updateRecord, hr, Option.map_some']
    rw [show ({ r with port := -1 } : Record) = ⟨r.domain, r.paths, -1⟩ from rfl, hpaths]

/-- Witness for C6 at a concrete one-record registry. -/
theorem default_port_removal_demotes_witness :
    getRecord [("a.local".toList, ⟨"a.local".toList, [("/x".toList, 1)], 3000⟩)]
        "a.local".toList = some ⟨"a.local".toList, [("/x".toList, 1)], 3000⟩ ∧
    ∃ rs',
      remove_proxies_registry
          [("a.local".toList, ⟨"a.local".toList, [("/x".toList, 1)], 3000⟩)]
          ["a.local:3000".toList] = some rs' ∧
      getRecord rs' "a.local".toList = some ⟨"a.local".toList, [("/x".toList, 1)], -1⟩ :=
  ⟨by decide,
    default_port_removal_demotes
      [("a.local".toList, ⟨"a.local".toList, [("/x".toList, 1)], 3000⟩)]
      ⟨"a.local".toList, [("/x".toList, 1)], 3000⟩ (by decide) (by decide) (by decide)⟩

/-- C7: adding `a.local:3000` twice in succession yields the same registry as
adding it once, for every starting registry. -/
theorem default_route_add_idempotent (rs : Records) :
    (add_proxies_registry rs ["a.local:3000".toList]).bind
        (fun rs1 => add_proxies_registry rs1 ["a.local:3000".toList]) =
      add_proxies_registry rs ["a.local:3000".toList] := by
  have hparse : parse_proxy_entry "a.local:3000".toList =
      some ("a.local".toList, 3000, none) := by decide
  rw [add_proxies_singleton]
  cases hg : getRecord rs "a.local".toList with
  | some r =>
    rw [addEntry_noPath_existing hparse hg, Option.some_bind, add_proxies_singleton]
    have hg2 : getRecord (updateRecord rs "a.local".toList fun c => { c with port := 3000 })
        "a.local".toList = some { r with port := 3000 } := by
      rw [getRecord_updateRecord, hg, Option.map_some']
    rw [addEntry_noPath_existing hparse hg2, updateRecord_updateRecord]
  | none =>
    rw [addEntry_noPath_new hparse hg, Option.some_bind, add_proxies_singleton]
    rw [insertRecord_eq_append _ hg]
    have hg2 : getRecord (rs ++ [("a.local".toList, ⟨"a.local".toList, [], 3000⟩)])
        "a.local".toList = some ⟨"a.local".toList, [], 3000⟩ :=
      getRecord_append_of_none hg
    rw [addEntry_noPath_existing hparse hg2, updateRecord_append_of_none _ hg]

/-- C8: when the registry has zero records the generated Caddyfile text is a
single newline character, never the empty string. -/
theorem empty_registry_yields_single_newline (config : DotLocalConfig) (lanIp : List Char)
    (h : config.records = []) :
    update_caddyfile_content config lanIp = "\n".toList ∧
    "\n".toList ≠ ("".toList : List Char) := by
  constructor
  · rw [update_caddyfile_content, h]
    rfl
  · decide

/-- Witness for C8 at the default (empty) configuration. -/
theorem empty_registry_yields_single_newline_witness :
    DotLocalConfig.new.records = [] ∧
    update_caddyfile_content DotLocalConfig.new "10.0.0.5".toList = "\n".toList :=
  ⟨by decide,
    (empty_registry_yields_single_newline DotLocalConfig.new "10.0.0.5".toList (by decide)).1⟩

/-- C9: every control-plane request whose method is not GET, to any url, is
answered `405`; the helper-process set is unchanged, the accept loop does not
break, and no effect (no Caddyfile write, no caddy reload or stop, no helper
kill or spawn) is performed. -/
theorem non_get_request_rejected_405 (m : HttpMethod) (url : List Char)
    (processes : List (List Char)) (disk : Option DotLocalConfig)
    (h : m ≠ HttpMethod.get) :
    handle_request m url processes disk = (some 405, processes, false, []) := by
  rw [handle_request, if_pos h]

/-- Witness for C9: a POST to /restart. -/
theorem non_get_request_rejected_405_witness :
    HttpMethod.post ≠ HttpMethod.get ∧
    handle_request HttpMethod.post "/restart".toList ["a.local".toList]
        (some ⟨[("a.local".toList, ⟨"a.local".toList, [], 3000⟩)], true, true⟩) =
      (some 405, ["a.local".toList], false, []) :=
  ⟨by decide,
    non_get_request_rejected_405 HttpMethod.post "/restart".toList ["a.local".toList]
      (some ⟨[("a.local".toList, ⟨"a.local".toList, [], 3000⟩)], true, true⟩) (by decide)⟩

/-- C10: parsing an entry with no `:` hits the out-of-bounds panic, so it
yields no triple, and any add or remove batch containing such an entry aborts
as a whole. -/
theorem entry_without_colon_aborts (entry : List Char) (h : ':' ∉ entry) :
    parse_proxy_entry entry = none ∧
    (∀ (rs : Records) (entries : List (List Char)), entry ∈ entries →
      add_proxies_registry rs entries = none) ∧
    (∀ (rs : Records) (entries : List (List Char)), entry ∈ entries →
      remove_proxies_registry rs entries = none) := by
  have hp := parse_proxy_entry_of_no_colon h
  refine ⟨hp, ?_, ?_⟩
  · intro rs entries hmem
    induction entries generalizing rs with
    | nil => cases hmem
    | cons a es ih =>
      rcases List.mem_cons.mp hmem with rfl | hmem'
      · simp only [add_proxies_registry, addEntry_of_parse_none hp]
      · cases ha : addEntry rs a with
        | none => simp only [add_proxies_registry, ha]
        | some rs2 =>
          simp only [add_proxies_registry, ha]
          exact ih rs2 hmem'
  · intro rs entries hmem
    induction entries generalizing rs with
    | nil => cases hmem
    | cons a es ih =>
      rcases List.mem_cons.mp hmem with rfl | hmem'
      · simp only [remove_proxies_registry, removeEntry_of_parse_none hp]
      · cases ha : removeEntry rs a with
        | none => simp only [remove_proxies_registry, ha]
        | some rs2 =>
          simp only [remove_proxies_registry, ha]
          exact ih rs2 hmem'

/-- Witness for C10 at the colon-free entry `a.local`. -/
theorem entry_without_colon_aborts_witness :
    ':' ∉ "a.local".toList ∧
    parse_proxy_entry "a.local".toList = none ∧
    add_proxies_registry [] ["a.local".toList] = none ∧
    remove_proxies_registry [] ["a.local".toList] = none :=
  ⟨by decide, (entry_without_colon_aborts "a.local".toList (by decide)).1,
    (entry_without_colon_aborts "a.local".toList (by decide)).2.1 [] ["a.local".toList]
      (by decide),
    (entry_without_colon_aborts "a.local".toList (by decide)).2.2 [] ["a.local".toList]
      (by decide)⟩

end DotLocal
